import Mathlib

/-!
Verification development for the fit-adv repository.

Shallow embedding of the core pipeline pieces:
* `backfill.py` — range computation and window iteration (timestamps as UTC
  seconds, modelled by integers; a timedelta of d days is 86400*d seconds,
  of h hours 3600*h seconds).
* `io_whoop_api.py` — query-parameter construction of `fetch_collection`
  and the retry/backoff loop `_request_with_backoff` (sleep durations as
  rationals; an HTTP response is a status code plus an optional parsed
  Retry-After value, `none` standing for an absent or empty header).
* `io_duckdb.py` — `ingest_records` over a list model of the `raw_records`
  table (the SQL UPDATE ... FROM is modelled row-wise: each stored row that
  is matched takes the first staged row satisfying the join-and-freshness
  condition, a deterministic resolution of the set-based statement).
* `build_daily_dataset.py` / `pipeline.py` — workout daily aggregation and
  the grain collapse (frames as lists of rows; for the collapse, rows are
  association lists so that the dynamic column set of the pandas frame is
  visible).
-/

namespace FitAdv

/-! ## backfill.py -/

/-- `Window` from backfill.py; the source field `end` is called `stop`
here because `end` is a reserved word. Timestamps are UTC seconds. -/
structure Window where
  start : Int
  stop : Int
deriving Repr, DecidableEq

/-- Resolution of the range end in `compute_backfill_range`
(backfill.py lines 61-64): `until` if provided else `now`. A `none`
also covers the falsy empty string of the Python truthiness test. -/
def resolve_end (until_ : Option Int) (now : Int) : Int :=
  until_.getD now

/-- Resolution of the range start in `compute_backfill_range`
(backfill.py lines 66-71): `since` if provided, else `end - days` when a
day count is given, else no start source (`none`). -/
def resolve_start (since : Option Int) (days : Option Int) (e : Int) : Option Int :=
  match since with
  | some s => some s
  | none =>
    match days with
    | none => none
    | some d => some (e - 86400 * d)

/-- `compute_backfill_range` from backfill.py: determine `[start, end)` in
UTC, raising `ValueError` (modelled by `Except.error`) when neither
`since` nor `days` is given or when `start >= end`. -/
def compute_backfill_range (since : Option Int) (days : Option Int)
    (until_ : Option Int) (now : Int) : Except String (Int × Int) :=
  let e := resolve_end until_ now
  match resolve_start since days e with
  | none => .error "Either since or days must be provided."
  | some s =>
    if s ≥ e then .error "Invalid backfill range: start >= end"
    else .ok (s, e)

/-- The while loop of `iter_windows` (backfill.py lines 86-91): starting
from `cur`, yield `[cur, min (cur+step) stop)` windows until `cur ≥ stop`.
The positivity of the step is carried as a hypothesis for termination;
the source guarantees it by raising before the loop. -/
def windows_loop (stop step : Int) (hstep : 0 < step) (cur : Int) : List Window :=
  if h : cur < stop then
    Window.mk cur (min (cur + step) stop) ::
      windows_loop stop step hstep (min (cur + step) stop)
  else
    []
termination_by (stop - cur).toNat
decreasing_by
  have h1 : cur < min (cur + step) stop := by
    omega
  omega

/-- `iter_windows` from backfill.py: raises `ValueError` when
`chunk_hours ≤ 0`, else yields contiguous windows of `3600 * chunk_hours`
seconds, the last clipped to `stop`. -/
def iter_windows (start stop : Int) (chunk_hours : Int) : Except String (List Window) :=
  if h : chunk_hours ≤ 0 then
    .error "chunk_hours must be > 0"
  else
    .ok (windows_loop stop (3600 * chunk_hours) (by omega) start)

/-! ## io_whoop_api.py -/

/-- The keyword parameters accepted by `fetch_collection`
(io_whoop_api.py lines 155-161): the signature is keyword-only and has no
`until` parameter, so a call passing `until=` raises `TypeError`. -/
def fetch_collection_arg_names : List String :=
  ["access_token", "path", "since", "limit"]

/-- The keyword arguments that `_cmd_whoop_backfill` passes to
`fetch_collection` for the cycle, recovery and sleep endpoints
(cli.py lines 460-480): each call carries `until=w.end_iso`. -/
def backfill_fetch_call_kwargs : List String :=
  ["access_token", "path", "since", "until", "limit"]

/-- Limit clamping in `fetch_collection` (io_whoop_api.py line 167):
`max(1, min(int(limit), 25))`. -/
def clamp_limit (limit : Int) : Int :=
  max 1 (min limit 25)

/-- The query-parameter dict built for each page request inside the
`fetch_collection` loop (io_whoop_api.py lines 176-180): `limit` always,
`start` when `since` is truthy, `nextToken` when a cursor is carried.
`none` covers both the absent and the falsy-empty Python values. -/
def build_params (limit : Int) (since : Option String) (next_token : Option String) :
    List (String × String) :=
  [("limit", toString limit)]
    ++ (match since with | some s => [("start", s)] | none => [])
    ++ (match next_token with | some t => [("nextToken", t)] | none => [])

/-- An HTTP response as seen by `_request_with_backoff`: a status code and
the optional parsed `Retry-After` header (`none` for an absent or empty
header, matching the falsy test on the header string). -/
structure HttpResp where
  status : Int
  retry_after : Option ℚ
deriving Repr, DecidableEq

/-- The loop body of `_request_with_backoff` (io_whoop_api.py lines
127-145) over a server modelled as a function from the attempt index to
the response. `fuel` is the number of attempts left (`max_retries + 1` at
the top call), `i` the current attempt index, `backoff` the current
exponential delay. Returns the list of sleep durations in order and the
response the function returns (the last response once attempts are
exhausted). -/
def backoff_go (server : Nat → HttpResp) (fuel : Nat) (i : Nat) (backoff : ℚ)
    (last : Option HttpResp) : List ℚ × Option HttpResp :=
  match fuel with
  | 0 => ([], last)
  | fuel' + 1 =>
    let r := server i
    if r.status = 429 then
      let wait := match r.retry_after with | some ra => ra | none => backoff
      let rest := backoff_go server fuel' (i + 1) (min (backoff * 2) 60) (some r)
      (wait :: rest.1, rest.2)
    else if 500 ≤ r.status ∧ r.status ≤ 599 then
      let rest := backoff_go server fuel' (i + 1) (min (backoff * 2) 60) (some r)
      (backoff :: rest.1, rest.2)
    else
      ([], some r)

/-- `_request_with_backoff` from io_whoop_api.py: `max_retries + 1`
attempts, backoff seeded at 1 second. -/
def request_with_backoff (server : Nat → HttpResp) (max_retries : Nat) :
    List ℚ × Option HttpResp :=
  backoff_go server (max_retries + 1) 0 1 none

/-! ## io_duckdb.py -/

/-- A row of the `raw_records` table (init_schema, io_duckdb.py lines
56-66). Timestamps are UTC seconds, the payload is the `json.dumps` text. -/
structure RawRow where
  endpoint : String
  record_id : String
  updated_at : Option Int
  ingested_at : Int
  payload_json : String
deriving Repr, DecidableEq

/-- An incoming record as `ingest_records` reads it (io_duckdb.py lines
137-148): `rid` models `r.get(record_id_field)` (already stringified,
`none` when the id field is absent so the record is skipped), `upd`
models the truthy value of `r.get(updated_at_field)` (`none` for an
absent, null or falsy value, or when no `updated_at_field` is
configured), and `dump` models `json.dumps(r)`. -/
structure SrcRecord where
  rid : Option String
  upd : Option Int
  dump : String
deriving Repr, DecidableEq

/-- The staging loop of `ingest_records` (io_duckdb.py lines 136-148):
records lacking the id field are skipped, the others become staged rows
sharing a single `ingested_at`. -/
def stage_rows (endpoint : String) (ingested_at : Int) (records : List SrcRecord) :
    List RawRow :=
  records.filterMap fun r =>
    r.rid.map fun rid =>
      RawRow.mk endpoint rid r.upd ingested_at r.dump

/-- The `(endpoint, record_id)` join condition used by the insert and
update statements of `ingest_records`. -/
def same_key (s r : RawRow) : Bool :=
  r.endpoint = s.endpoint && r.record_id = s.record_id

/-- The freshness condition of the UPDATE in `ingest_records`
(io_duckdb.py lines 214-219): stored `updated_at` null, or staged
`updated_at` null, or staged `updated_at >= stored updated_at`. -/
def upd_cond (s r : RawRow) : Bool :=
  match r.updated_at, s.updated_at with
  | none, _ => true
  | _, none => true
  | some ru, some su => su ≥ ru

/-- The SET clause of the UPDATE in `ingest_records` (io_duckdb.py lines
207-211): `updated_at = COALESCE(s.updated_at, r.updated_at)`,
`ingested_at = s.ingested_at`, `payload_json = s.payload_json`. -/
def apply_update (s r : RawRow) : RawRow :=
  { r with
    updated_at := s.updated_at.orElse fun _ => r.updated_at
    ingested_at := s.ingested_at
    payload_json := s.payload_json }

/-- The UPDATE ... FROM stage statement of `ingest_records`, applied to
one stored row: the first staged row satisfying the join and freshness
conditions (a deterministic resolution of the set-based SQL update; when
several staged rows match one stored row the engine applies exactly one
of them) updates the row in place; otherwise the row is untouched. -/
def update_row (stage : List RawRow) (r : RawRow) : RawRow :=
  match stage.find? (fun s => same_key s r && upd_cond s r) with
  | some s => apply_update s r
  | none => r

/-- The staged rows that the INSERT ... WHERE NOT EXISTS statement of
`ingest_records` (io_duckdb.py lines 189-201) adds: those whose
`(endpoint, record_id)` is absent from `raw_records` at the start of the
statement. A batch containing the same id twice therefore inserts both
copies. -/
def new_rows (store : List RawRow) (stage : List RawRow) : List RawRow :=
  stage.filter fun s => !store.any fun r => same_key s r

/-- `ingest_records` from io_duckdb.py (lines 119-223) over the list
model of `raw_records`: stage, count and insert the new identities, then
(when `update_existing`) apply the freshness-guarded update from the
stage to every stored row. Returns the reported insert count and the new
table. -/
def ingest_records (endpoint : String) (ingested_at : Int)
    (records : List SrcRecord) (update_existing : Bool) (store : List RawRow) :
    Nat × List RawRow :=
  let stage := stage_rows endpoint ingested_at records
  if stage.isEmpty then
    (0, store)
  else
    let fresh := new_rows store stage
    let store1 := store ++ fresh
    let store2 := if update_existing then store1.map (update_row stage) else store1
    (fresh.length, store2)

/-- The identity-and-content projection of a stored row: everything but
`ingested_at` (the ingestion timestamp is the only column expected to
differ across re-ingests of identical data). -/
def row_content (r : RawRow) : String × String × Option Int × String :=
  (r.endpoint, r.record_id, r.updated_at, r.payload_json)

/-- Re-stamping a staged row with a new ingestion time; restaging the
same batch at a later time yields exactly the re-stamped stage. -/
def reing (t : Int) (s : RawRow) : RawRow :=
  { s with ingested_at := t }

/-! ## build_daily_dataset.py -/

/-- A workout record as `add_workout_daily_metrics` reads it, in the
normal schema where all used columns are present and valid. `start` and
`stop` (source field `end`) are UTC-second timestamps; `duration_milli`
is the vendor-reported duration in milliseconds. -/
structure WorkoutRow where
  start : Int
  stop : Int
  strain : ℚ
  kilojoule : ℚ
  duration_milli : ℚ
deriving Repr, DecidableEq

/-- A daily row after `add_workout_daily_metrics`: the date plus the four
workout aggregate columns the function ensures (build_daily_dataset.py
lines 28-33). The count is carried as a rational like the other
measures. -/
structure DailyWRow where
  date : Int
  workout_count : ℚ
  workout_strain_sum : ℚ
  workout_kilojoule_sum : ℚ
  workout_minutes_sum : ℚ
deriving Repr, DecidableEq

/-- UTC calendar date of a UTC-second timestamp
(`pd.to_datetime(...).dt.date` in build_daily_dataset.py lines 53-54),
as a day number: floor division by 86400. -/
def date_of_ts (t : Int) : Int :=
  Int.fdiv t 86400

/-- Insert into a sorted list of distinct keys (used to model the sorted
distinct group keys that `groupby("date")` produces). -/
def insert_key (x : Int) (l : List Int) : List Int :=
  match l with
  | [] => [x]
  | y :: ys =>
    if x < y then x :: y :: ys
    else if x = y then y :: ys
    else y :: insert_key x ys

/-- The sorted distinct group keys of `groupby("date")`. -/
def sorted_dates (ds : List Int) : List Int :=
  ds.foldr insert_key []

/-- One output row of the `w.groupby("date").agg(...)` call
(build_daily_dataset.py lines 57-62) for the group of date `d`:
count of `start`, sum of `strain`, sum of `kilojoule`, and minutes as
`duration_milli` summed and divided by 60000. -/
def workout_agg_row (ws : List WorkoutRow) (d : Int) : DailyWRow :=
  let g := ws.filter fun w => date_of_ts w.start = d
  DailyWRow.mk d (g.length : ℚ)
    ((g.map WorkoutRow.strain).sum)
    ((g.map WorkoutRow.kilojoule).sum)
    ((g.map WorkoutRow.duration_milli).sum / 60000)

/-- The full `groupby("date").agg(...)` frame: one row per distinct date
of the workout frame, dates ascending. -/
def workout_agg (ws : List WorkoutRow) : List DailyWRow :=
  (sorted_dates (ws.map fun w => date_of_ts w.start)).map (workout_agg_row ws)

/-- `add_workout_daily_metrics` from build_daily_dataset.py (lines
26-72) in the typed model: the daily frame is its list of dates; the
base columns are created as zeros, and unless the workout frame is
empty, the aggregate frame is left-merged on date with `fillna` keeping
the zeros for unmatched dates. -/
def add_workout_daily_metrics (df_daily : List Int) (df_workout : List WorkoutRow) :
    List DailyWRow :=
  let base := df_daily.map fun d => DailyWRow.mk d 0 0 0 0
  if df_workout.isEmpty then base
  else
    let agg := workout_agg df_workout
    base.map fun row =>
      match agg.find? (fun a => a.date = row.date) with
      | some a => a
      | none => row

/-- Following the spec wording for claim C3 only (not the code): the
per-date sum of duration minutes computed from each workout record
start/end pair. -/
def spec_minutes_from_start_stop (ws : List WorkoutRow) (d : Int) : ℚ :=
  ((ws.filter fun w => date_of_ts w.start = d).map
    fun w => ((w.stop - w.start : Int) : ℚ) / 60).sum

/-! ## pipeline.py -/

/-- A row of the daily frame reaching `_collapse_daily_to_one_row_per_date`,
as an association list from column name to value, so that the dynamic
column set of the pandas frame stays visible. Dates are carried as
values of the `date` column (any order-isomorphic encoding of date
strings); cell values are carried as integers, enough for the sums and
first-picks the collapse performs. -/
abbrev PRow := List (String × Int)

/-- A pandas frame for the collapse step: its column list and its rows. -/
structure PFrame where
  cols : List String
  rows : List PRow
deriving Repr, DecidableEq

/-- Value of a column in a row (columns of the frame are present in its
rows; the 0 default is never hit on well-formed frames). -/
def lookup_val (r : PRow) (c : String) : Int :=
  (r.lookup c).getD 0

/-- The `date` key of a row. -/
def row_date (r : PRow) : Int :=
  lookup_val r "date"

/-- Stable insertion into a date-sorted row list: an incoming row goes
before the first row with an equal-or-larger date, so equal dates keep
their original relative order under the fold below. -/
def insert_by_date (x : PRow) (l : List PRow) : List PRow :=
  match l with
  | [] => [x]
  | y :: ys =>
    if row_date x ≤ row_date y then x :: y :: ys
    else y :: insert_by_date x ys

/-- `df.sort_values("date")` modelled as a stable sort by date. -/
def sort_by_date (rows : List PRow) : List PRow :=
  rows.foldr insert_by_date []

/-- `drop_duplicates("date", keep="first")` on a row list. -/
def dedup_by_date (rows : List PRow) (seen : List Int) : List PRow :=
  match rows with
  | [] => []
  | r :: rest =>
    if seen.contains (row_date r) then dedup_by_date rest seen
    else r :: dedup_by_date rest (row_date r :: seen)

/-- First-occurrence deduplication of the date keys (the group keys of
`groupby("date")`; the input is already sorted so the result is the
ascending key list). -/
def dedup_dates (ds : List Int) (seen : List Int) : List Int :=
  match ds with
  | [] => []
  | d :: rest =>
    if seen.contains d then dedup_dates rest seen
    else d :: dedup_dates rest (d :: seen)

/-- The `first_cols` list of `_collapse_daily_to_one_row_per_date`
(pipeline.py lines 60-79). -/
def first_cols : List String :=
  ["recovery_score", "hrv_rmssd_milli", "resting_hr", "spo2_pct", "skin_temp_c",
   "score_user_calibrating",
   "sleep_perf_pct", "sleep_eff_pct", "sleep_consistency_pct", "resp_rate",
   "sleep_asleep_hours_est",
   "cycle_strain", "cycle_kilojoule", "cycle_avg_hr", "cycle_max_hr"]

/-- The `sum_cols` list of `_collapse_daily_to_one_row_per_date`
(pipeline.py lines 81-84): only the count and the strain sum. -/
def sum_cols : List String :=
  ["workout_count", "workout_strain_sum"]

/-- One output row of the `groupby("date", as_index=False).agg(agg)`
call (pipeline.py lines 101-105) for date `d`: the date, the first-row
value for each aggregated `first` column, the group sum for each
aggregated `sum` column. Columns outside `agg` are dropped. -/
def collapse_group (rows : List PRow) (aggF aggS : List String) (d : Int) : PRow :=
  let g := rows.filter fun r => row_date r = d
  ("date", d) ::
    (aggF.map fun c => (c, lookup_val (g.headD []) c))
    ++ (aggS.map fun c => (c, (g.map fun r => lookup_val r c).sum))

/-- `_collapse_daily_to_one_row_per_date` from pipeline.py (lines
46-106): empty frames or frames without a date column pass through; with
no recognized aggregate column the frame is sorted and date-deduplicated;
otherwise the frame is replaced by the grouped aggregation whose columns
are `date` plus exactly the recognized `first`/`sum` columns. -/
def collapse_daily_to_one_row_per_date (f : PFrame) : PFrame :=
  if f.rows.isEmpty || !f.cols.contains "date" then f
  else
    let aggF := first_cols.filter fun c => f.cols.contains c
    let aggS := sum_cols.filter fun c => f.cols.contains c
    let sorted := sort_by_date f.rows
    if aggF.isEmpty && aggS.isEmpty then
      PFrame.mk f.cols (dedup_by_date sorted [])
    else
      PFrame.mk ("date" :: (aggF ++ aggS))
        ((dedup_dates (sorted.map row_date) []).map (collapse_group sorted aggF aggS))

/-! ## Theorems -/

/-- Unfolding of `windows_loop` while the cursor is before the range end. -/
theorem wl_pos (stop step : Int) (hstep : 0 < step) (cur : Int) (h : cur < stop) :
    windows_loop stop step hstep cur =
      Window.mk cur (min (cur + step) stop) ::
        windows_loop stop step hstep (min (cur + step) stop) := by
  rw [windows_loop]
  simp [h]

/-- Unfolding of `windows_loop` once the cursor reached the range end. -/
theorem wl_neg (stop step : Int) (hstep : 0 < step) (cur : Int) (h : ¬ cur < stop) :
    windows_loop stop step hstep cur = [] := by
  rw [windows_loop]
  simp [h]

/-- Combined invariant of the window loop: windows are bounded by the
range and non-degenerate, consecutive windows are contiguous, the first
starts at the cursor, the last ends exactly at the range end, and every
window but the last spans exactly one step. -/
theorem wl_master (stop step : Int) (hstep : 0 < step) (cur : Int) :
    (∀ w ∈ windows_loop stop step hstep cur, cur ≤ w.start ∧ w.start < w.stop ∧ w.stop ≤ stop)
    ∧ List.Chain' (fun a b => a.stop = b.start) (windows_loop stop step hstep cur)
    ∧ (cur < stop →
        (windows_loop stop step hstep cur).head?.map Window.start = some cur
        ∧ (windows_loop stop step hstep cur).getLast?.map Window.stop = some stop)
    ∧ (∀ w ∈ (windows_loop stop step hstep cur).dropLast, w.stop - w.start = step) := by
  induction cur using windows_loop.induct stop step hstep with
  | case2 cur h =>
    rw [wl_neg stop step hstep cur h]
    simp
    omega
  | case1 cur h ih =>
    obtain ⟨ihb, ihc, ihhl, ihd⟩ := ih
    rw [wl_pos stop step hstep cur h]
    have hm : cur < min (cur + step) stop := by omega
    have hms : min (cur + step) stop ≤ stop := by omega
    refine ⟨?_, ?_, ?_, ?_⟩
    · intro w hw
      rcases List.mem_cons.mp hw with rfl | hw'
      · exact ⟨le_refl _, hm, hms⟩
      · have := ihb w hw'
        exact ⟨le_trans (le_of_lt hm) this.1, this.2.1, this.2.2⟩
    · rw [List.chain'_cons']
      refine ⟨?_, ihc⟩
      intro y hy
      have hne : windows_loop stop step hstep (min (cur + step) stop) ≠ [] := by
        intro hnil
        rw [hnil] at hy
        simp at hy
      have hlt : min (cur + step) stop < stop := by
        by_contra hc
        exact hne (wl_neg stop step hstep _ hc)
      rw [wl_pos stop step hstep _ hlt] at hy
      simp at hy
      rw [← hy]
    · intro _
      constructor
      · simp
      · by_cases hlt : min (cur + step) stop < stop
        · have hne : windows_loop stop step hstep (min (cur + step) stop) ≠ [] := by
            rw [wl_pos stop step hstep _ hlt]
            simp
          obtain ⟨y, ys, heq⟩ := List.exists_cons_of_ne_nil hne
          rw [heq, List.getLast?_cons_cons, ← heq]
          exact (ihhl hlt).2
        · rw [wl_neg stop step hstep _ hlt]
          simp
          omega
    · intro w hw
      by_cases hlt : min (cur + step) stop < stop
      · have hne : windows_loop stop step hstep (min (cur + step) stop) ≠ [] := by
          rw [wl_pos stop step hstep _ hlt]
          simp
        rw [List.dropLast_cons_of_ne_nil hne] at hw
        rcases List.mem_cons.mp hw with rfl | hw'
        · simp
          omega
        · exact ihd w hw'
      · rw [wl_neg stop step hstep _ hlt] at hw
        simp at hw

/-- Claim C7: for start < end and a positive chunk size, `iter_windows`
yields a non-empty window list, each window non-degenerate, consecutive
windows contiguous, the first starting at the range start, the last
ending exactly at the range end, and every window but the last spanning
exactly `chunk_hours` (3600 times the hour count in seconds). -/
theorem c7_iter_windows_spec (start stop ch : Int) (hr : start < stop) (hc : 0 < ch) :
    ∃ L, iter_windows start stop ch = .ok L
      ∧ L ≠ []
      ∧ (∀ w ∈ L, w.start < w.stop)
      ∧ List.Chain' (fun a b => a.stop = b.start) L
      ∧ L.head?.map Window.start = some start
      ∧ L.getLast?.map Window.stop = some stop
      ∧ (∀ w ∈ L.dropLast, w.stop - w.start = 3600 * ch) := by
  have hstep : (0 : Int) < 3600 * ch := by omega
  have hnle : ¬ ch ≤ 0 := by omega
  refine ⟨windows_loop stop (3600 * ch) hstep start, ?_, ?_, ?_, ?_, ?_, ?_, ?_⟩
  · simp [iter_windows, hnle]
  · rw [wl_pos stop _ hstep start hr]
    exact List.cons_ne_nil _ _
  · intro w hw
    exact ((wl_master stop _ hstep start).1 w hw).2.1
  · exact (wl_master stop _ hstep start).2.1
  · exact ((wl_master stop _ hstep start).2.2.1 hr).1
  · exact ((wl_master stop _ hstep start).2.2.1 hr).2
  · exact (wl_master stop _ hstep start).2.2.2

/-- Witness for C7 at the concrete range [0, 3600) with 1-hour chunks. -/
theorem c7_iter_windows_spec_witness :
    (0 : Int) < 3600 ∧ (0 : Int) < 1 ∧
      (∃ L, iter_windows 0 3600 1 = .ok L
        ∧ L ≠ []
        ∧ (∀ w ∈ L, w.start < w.stop)
        ∧ List.Chain' (fun a b => a.stop = b.start) L
        ∧ L.head?.map Window.start = some 0
        ∧ L.getLast?.map Window.stop = some 3600
        ∧ (∀ w ∈ L.dropLast, w.stop - w.start = 3600 * 1)) :=
  ⟨by norm_num, by norm_num, c7_iter_windows_spec 0 3600 1 (by norm_num) (by norm_num)⟩

/-- Characterization of the `resolve_start` failure case. -/
theorem resolve_start_none_iff (since days : Option Int) (e : Int) :
    resolve_start since days e = none ↔ since = none ∧ days = none := by
  cases since <;> cases days <;> simp [resolve_start]

/-- Claim C9: `compute_backfill_range` errors exactly when no start
source is given (neither since nor days) or when the resolved start is
at or after the resolved end; otherwise it returns a pair with
start < end where the end is the given until bound, defaulting to the
current time when no until is given. -/
theorem c9_compute_backfill_range_spec (since days until_ : Option Int) (now : Int) :
    ((∃ m, compute_backfill_range since days until_ now = .error m) ↔
      (since = none ∧ days = none) ∨
        (∃ s, resolve_start since days (resolve_end until_ now) = some s ∧
          resolve_end until_ now ≤ s))
    ∧ (∀ p, compute_backfill_range since days until_ now = .ok p →
        p.1 < p.2 ∧ p.2 = resolve_end until_ now ∧ (until_ = none → p.2 = now)) := by
  constructor
  · cases hrs : resolve_start since days (resolve_end until_ now) with
    | none =>
      constructor
      · intro _
        exact Or.inl ((resolve_start_none_iff since days _).mp hrs)
      · intro _
        exact ⟨"Either since or days must be provided.",
          by simp [compute_backfill_range, hrs]⟩
    | some s =>
      by_cases hge : s ≥ resolve_end until_ now
      · constructor
        · intro _
          exact Or.inr ⟨s, rfl, hge⟩
        · intro _
          exact ⟨"Invalid backfill range: start >= end",
            by simp [compute_backfill_range, hrs, hge]⟩
      · constructor
        · intro ⟨m, hm⟩
          simp [compute_backfill_range, hrs, hge] at hm
        · intro hor
          rcases hor with ⟨h1, h2⟩ | ⟨s', hs', hle⟩
          · have hnone := (resolve_start_none_iff since days (resolve_end until_ now)).mpr ⟨h1, h2⟩
            rw [hrs] at hnone
            exact absurd hnone (by simp)
          · injection hs' with hss
            subst hss
            exact absurd hle hge
  · intro p hp
    cases hrs : resolve_start since days (resolve_end until_ now) with
    | none => simp [compute_backfill_range, hrs] at hp
    | some s =>
      by_cases hge : s ≥ resolve_end until_ now
      · simp [compute_backfill_range, hrs, hge] at hp
      · simp [compute_backfill_range, hrs, hge] at hp
        rw [← hp]
        refine ⟨by omega, rfl, ?_⟩
        intro hu
        subst hu
        rfl

/-- Witness for C9 at a successful concrete input. -/
theorem c9_compute_backfill_range_spec_witness :
    (0 : Int) < 86400 ∧ (86400 : Int) = resolve_end (some 86400) 7
      ∧ ((some 86400 : Option Int) = none → (86400 : Int) = 7) :=
  (c9_compute_backfill_range_spec (some 0) none (some 86400) 7).2 (0, 86400) (by rfl)

/-- Claim C10: with no explicit start but both a day count and an
explicit until, the range is anchored to the until bound: the result is
independent of the clock, and for a positive day count it is exactly
`[until - days, until)`. -/
theorem c10_days_anchored_to_until (d u n1 n2 : Int) :
    compute_backfill_range none (some d) (some u) n1
      = compute_backfill_range none (some d) (some u) n2
    ∧ (0 < d →
        compute_backfill_range none (some d) (some u) n1
          = .ok (u - 86400 * d, u)) := by
  constructor
  · rfl
  · intro hd
    have hlt : ¬ (u - 86400 * d ≥ u) := by omega
    simp [compute_backfill_range, resolve_start, resolve_end, hlt]

/-- Witness for C10 at a concrete day count and until bound. -/
theorem c10_days_anchored_to_until_witness :
    (0 : Int) < 1 ∧
      compute_backfill_range none (some 1) (some 0) 5 = .ok (0 - 86400 * 1, 0) :=
  ⟨by norm_num, (c10_days_anchored_to_until 1 0 5 99).2 (by norm_num)⟩

/-- The doubling-and-capping recurrence of the backoff value: starting
from `min (2^i) 60`, one step of `min (backoff * 2) 60` gives
`min (2^(i+1)) 60`. -/
theorem backoff_min_pow (i : ℕ) :
    min (min ((2:ℚ)^i) 60 * 2) 60 = min ((2:ℚ)^(i+1)) 60 := by
  rcases le_or_lt ((2:ℚ)^i) 60 with h | h
  · rw [min_eq_left h, pow_succ]
  · have h2 : (60:ℚ) ≤ 2^(i+1) := by
      calc (60:ℚ) ≤ 2^i := le_of_lt h
      _ ≤ 2^(i+1) := by
        rw [pow_succ]
        nlinarith [pow_pos (by norm_num : (0:ℚ) < 2) i]
    rw [min_eq_right (le_of_lt h), min_eq_right h2]
    norm_num

/-- The sleep sequence of the backoff loop, characterized positionally:
when started at attempt `i` with backoff `min (2^i) 60`, the j-th sleep
is the Retry-After value for a 429 carrying one, and the capped
exponential `min (2^(i+j)) 60` otherwise. -/
theorem backoff_go_sleeps (server : Nat → HttpResp) (fuel : Nat) :
    ∀ (i : Nat) (last : Option HttpResp),
      (backoff_go server fuel i (min ((2:ℚ)^i) 60) last).1
        = (List.range (backoff_go server fuel i (min ((2:ℚ)^i) 60) last).1.length).map
            (fun j =>
              if (server (i+j)).status = 429 then
                match (server (i+j)).retry_after with
                | some ra => ra
                | none => min ((2:ℚ)^(i+j)) 60
              else min ((2:ℚ)^(i+j)) 60) := by
  induction fuel with
  | zero =>
    intro i last
    simp [backoff_go]
  | succ f ihf =>
    intro i last
    by_cases h429 : (server i).status = 429
    · have hstep : (backoff_go server (f+1) i (min ((2:ℚ)^i) 60) last).1
          = (match (server i).retry_after with
             | some ra => ra
             | none => min ((2:ℚ)^i) 60)
            :: (backoff_go server f (i+1) (min ((2:ℚ)^(i+1)) 60) (some (server i))).1 := by
        rw [← backoff_min_pow i]
        simp only [backoff_go, h429, if_true]
      rw [hstep, ihf (i+1) (some (server i))]
      simp only [List.length_cons, List.length_map, List.length_range]
      rw [List.range_succ_eq_map]
      simp only [List.map_cons, List.map_map]
      congr 1
      · simp [h429]
      · apply List.map_congr_left
        intro j _
        simp only [Function.comp_apply, Nat.succ_eq_add_one]
        have hidx : i + (j + 1) = i + 1 + j := by omega
        rw [hidx]
    · by_cases h5xx : 500 ≤ (server i).status ∧ (server i).status ≤ 599
      · have hstep : (backoff_go server (f+1) i (min ((2:ℚ)^i) 60) last).1
            = min ((2:ℚ)^i) 60
              :: (backoff_go server f (i+1) (min ((2:ℚ)^(i+1)) 60) (some (server i))).1 := by
          rw [← backoff_min_pow i]
          simp only [backoff_go]
          rw [if_neg h429, if_pos h5xx]
        rw [hstep, ihf (i+1) (some (server i))]
        simp only [List.length_cons, List.length_map, List.length_range]
        rw [List.range_succ_eq_map]
        simp only [List.map_cons, List.map_map]
        congr 1
        · simp [h429]
        · apply List.map_congr_left
          intro j _
          simp only [Function.comp_apply, Nat.succ_eq_add_one]
          have hidx : i + (j + 1) = i + 1 + j := by omega
          rw [hidx]
      · have hstep : (backoff_go server (f+1) i (min ((2:ℚ)^i) 60) last).1 = [] := by
          simp only [backoff_go]
          rw [if_neg h429, if_neg h5xx]
        rw [hstep]
        simp

/-- Claim C8: for the response sequence [429 with Retry-After 1, 200] the
loop sleeps exactly once for 1.0 seconds and returns the 200; for
[500, 502, 200] it sleeps 1.0 then 2.0 and returns the 200; and in
general, with the default attempt ceiling of the source, the j-th sleep
is the server-supplied Retry-After when the j-th response is a 429
carrying one, and otherwise the capped exponential backoff
`min (2^j) 60` — seed 1, doubling per retried attempt, capped at 60. -/
theorem c8_request_with_backoff_spec :
    (request_with_backoff (fun i => if i = 0 then ⟨429, some 1⟩ else ⟨200, none⟩) 6
      = ([1], some ⟨200, none⟩))
    ∧ (request_with_backoff
        (fun i => if i = 0 then ⟨500, none⟩ else if i = 1 then ⟨502, none⟩ else ⟨200, none⟩) 6
      = ([1, 2], some ⟨200, none⟩))
    ∧ ∀ (server : Nat → HttpResp) (max_retries : Nat),
        (request_with_backoff server max_retries).1
          = (List.range (request_with_backoff server max_retries).1.length).map
              (fun j =>
                if (server j).status = 429 ∧ (server j).retry_after.isSome then
                  (server j).retry_after.getD 0
                else min ((2:ℚ)^j) 60) := by
  refine ⟨?_, ?_, ?_⟩
  · norm_num [request_with_backoff, backoff_go]
  · norm_num [request_with_backoff, backoff_go]
  · intro server max_retries
    have h1 : (1:ℚ) = min ((2:ℚ)^0) 60 := by norm_num
    unfold request_with_backoff
    rw [h1, backoff_go_sleeps server (max_retries + 1) 0 none]
    simp only [List.length_map, List.length_range]
    apply List.map_congr_left
    intro j _
    simp only [Nat.zero_add]
    by_cases h : (server j).status = 429
    · cases hra : (server j).retry_after with
      | some ra => simp [h, hra]
      | none => simp [h, hra]
    · simp [h]

/-- Membership through one insertion into the sorted key list. -/
theorem mem_insert_key (x : Int) (l : List Int) (d : Int) :
    d ∈ insert_key x l ↔ d = x ∨ d ∈ l := by
  induction l with
  | nil => simp [insert_key]
  | cons y ys ih =>
    by_cases h1 : x < y
    · simp [insert_key, h1]
    · by_cases h2 : x = y
      · subst h2
        simp [insert_key, h1]
      · simp only [insert_key, if_neg h1, if_neg h2, List.mem_cons, ih]
        tauto

/-- The sorted distinct date list has the same members as its input. -/
theorem mem_sorted_dates (ds : List Int) (d : Int) :
    d ∈ sorted_dates ds ↔ d ∈ ds := by
  induction ds with
  | nil => simp [sorted_dates]
  | cons x xs ih =>
    show d ∈ insert_key x (sorted_dates xs) ↔ _
    rw [mem_insert_key]
    simp [ih]

/-- Searching a key list for a given key finds the key iff it is a
member. -/
theorem find?_key_self (l : List Int) (d : Int) :
    l.find? (fun d' => d' = d) = if d ∈ l then some d else none := by
  induction l with
  | nil => simp
  | cons x xs ih =>
    by_cases h : x = d
    · subst h
      simp [List.find?_cons]
    · rw [List.find?_cons]
      have hx : (fun d' => decide (d' = d)) x = false := by simp [h]
      simp only [hx]
      rw [ih]
      have hdx : ¬ d = x := fun hc => h hc.symm
      by_cases hm : d ∈ xs
      · simp [hm, hdx]
      · simp [hm, hdx]

/-- Claim C3 (amended): `add_workout_daily_metrics` maps each daily date
to the aggregates of the workouts grouped on the UTC calendar date of
their start timestamp — count, strain sum, kilojoule sum, and minutes as
the `duration_milli` sum over 60000 — with zeros (not nulls) for dates
that have no workouts. No heart-rate aggregates are produced (the output
row type of the embedding carries none because the source builds none). -/
theorem c3_add_workout_daily_metrics_amended
    (df_daily : List Int) (df_workout : List WorkoutRow) :
    add_workout_daily_metrics df_daily df_workout
      = df_daily.map (fun d =>
          DailyWRow.mk d
            (((df_workout.filter fun w => date_of_ts w.start = d).length : ℚ))
            (((df_workout.filter fun w => date_of_ts w.start = d).map WorkoutRow.strain).sum)
            (((df_workout.filter fun w => date_of_ts w.start = d).map WorkoutRow.kilojoule).sum)
            (((df_workout.filter fun w => date_of_ts w.start = d).map
                WorkoutRow.duration_milli).sum / 60000)) := by
  by_cases hw : df_workout.isEmpty
  · have hnil : df_workout = [] := List.isEmpty_iff.mp hw
    subst hnil
    simp [add_workout_daily_metrics]
  · unfold add_workout_daily_metrics
    rw [if_neg hw]
    rw [List.map_map]
    apply List.map_congr_left
    intro d _
    simp only [Function.comp_apply]
    rw [workout_agg]
    rw [List.find?_map]
    have hcomp : ((fun a => decide (a.date = d)) ∘ workout_agg_row df_workout)
        = fun d' => decide (d' = d) := by
      funext d'
      simp [workout_agg_row]
    rw [hcomp, find?_key_self]
    by_cases hm : d ∈ sorted_dates (df_workout.map fun w => date_of_ts w.start)
    · rw [if_pos hm]
      simp [workout_agg_row]
    · rw [if_neg hm]
      rw [mem_sorted_dates, List.mem_map] at hm
      push_neg at hm
      have hfilt : (df_workout.filter fun w => date_of_ts w.start = d) = [] := by
        rw [List.filter_eq_nil_iff]
        intro w hwm
        simp only [decide_eq_true_eq]
        exact hm w hwm
      simp [hfilt, workout_agg_row]

/-- Claim C4 (amended): ingesting a single record for an identity already
present never creates a second row (insert count 0) and transforms every
stored row with that identity as follows: an incoming `updated_at`
strictly older than the stored non-null one leaves the row completely
unchanged; otherwise payload and `ingested_at` take the incoming values,
and `updated_at` takes the incoming value only when it is non-null,
keeping the stored value when the incoming one is null (the COALESCE).
Rows of other identities are untouched. -/
theorem c4_monotonic_update_amended (st : List RawRow) (e i p : String)
    (v : Option Int) (t : Int)
    (hmem : ∃ r ∈ st, r.endpoint = e ∧ r.record_id = i) :
    (ingest_records e t [SrcRecord.mk (some i) v p] true st).1 = 0
    ∧ (ingest_records e t [SrcRecord.mk (some i) v p] true st).2
      = st.map (fun r =>
          if r.endpoint = e ∧ r.record_id = i then
            match r.updated_at, v with
            | some ru, some iv =>
              if iv < ru then r
              else RawRow.mk e i (some iv) t p
            | some ru, none => RawRow.mk e i (some ru) t p
            | none, iv => RawRow.mk e i iv t p
          else r) := by
  obtain ⟨r0, hr0mem, hr0e, hr0i⟩ := hmem
  have hstage : stage_rows e t [SrcRecord.mk (some i) v p] = [RawRow.mk e i v t p] := by
    simp [stage_rows]
  have hany : st.any (fun r => same_key (RawRow.mk e i v t p) r) = true := by
    rw [List.any_eq_true]
    exact ⟨r0, hr0mem, by simp [same_key, hr0e, hr0i]⟩
  have hfresh : new_rows st [RawRow.mk e i v t p] = [] := by
    simp [new_rows, hany]
  have hne : ([RawRow.mk e i v t p] : List RawRow).isEmpty = false := by simp
  constructor
  · simp [ingest_records, hstage, hne, hfresh]
  · simp only [ingest_records, hstage, hne, hfresh, List.append_nil, if_true,
      Bool.false_eq_true, if_false]
    apply List.map_congr_left
    intro r _
    obtain ⟨re, ri, ru, rg, rp⟩ := r
    unfold update_row
    rw [List.find?_singleton]
    by_cases hk : re = e ∧ ri = i
    · obtain ⟨rfl, rfl⟩ := hk
      cases ru with
      | none =>
        cases v <;>
          simp [same_key, upd_cond, apply_update, Option.orElse, RawRow.mk.injEq]
      | some ruv =>
        cases v with
        | none =>
          simp [same_key, upd_cond, apply_update, Option.orElse]
        | some iv =>
          by_cases hlt : iv < ruv
          · have hnle : ¬ (ruv ≤ iv) := by omega
            simp [same_key, upd_cond, apply_update, hnle, hlt]
          · have hle : ruv ≤ iv := by omega
            simp [same_key, upd_cond, apply_update, hle, hlt, Option.orElse]
    · have hkb : same_key (RawRow.mk e i v t p) (RawRow.mk re ri ru rg rp) = false := by
        simp only [same_key]
        rcases not_and_or.mp hk with h | h <;> simp [h]
      rw [hkb]
      simp [if_neg hk]

/-- Witness for the amended C4 at a concrete newer-incoming update. -/
theorem c4_monotonic_update_amended_witness :
    (ingest_records "workout" 9 [SrcRecord.mk (some "a") (some 5) "new"] true
        [RawRow.mk "workout" "a" (some 3) 0 "old"]).1 = 0
    ∧ (ingest_records "workout" 9 [SrcRecord.mk (some "a") (some 5) "new"] true
        [RawRow.mk "workout" "a" (some 3) 0 "old"]).2
      = [RawRow.mk "workout" "a" (some 3) 0 "old"].map (fun r =>
          if r.endpoint = "workout" ∧ r.record_id = "a" then
            match r.updated_at, (some 5 : Option Int) with
            | some ru, some iv =>
              if iv < ru then r
              else RawRow.mk "workout" "a" (some iv) 9 "new"
            | some ru, none => RawRow.mk "workout" "a" (some ru) 9 "new"
            | none, iv => RawRow.mk "workout" "a" iv 9 "new"
          else r) :=
  c4_monotonic_update_amended [RawRow.mk "workout" "a" (some 3) 0 "old"]
    "workout" "a" "new" (some 5) 9
    ⟨RawRow.mk "workout" "a" (some 3) 0 "old", by simp, rfl, rfl⟩

/-- Staging the same batch at a later ingestion time gives the same
staged rows re-stamped. -/
theorem stage_rows_shift (e : String) (t₁ t₂ : Int) (recs : List SrcRecord) :
    stage_rows e t₂ recs = (stage_rows e t₁ recs).map (reing t₂) := by
  unfold stage_rows
  induction recs with
  | nil => rfl
  | cons r rs ih =>
    cases hr : r.rid with
    | none => simp [List.filterMap_cons, hr, ih]
    | some rid => simp [List.filterMap_cons, hr, ih, reing]

/-- The update step never changes the identity columns of a row. -/
theorem update_row_keys (S : List RawRow) (r : RawRow) :
    (update_row S r).endpoint = r.endpoint ∧ (update_row S r).record_id = r.record_id := by
  unfold update_row
  cases h : S.find? (fun s => same_key s r && upd_cond s r) with
  | none => exact ⟨rfl, rfl⟩
  | some s => exact ⟨rfl, rfl⟩

/-- The join condition ignores the ingestion timestamp of the staged
row. -/
theorem same_key_reing (t : Int) (s x : RawRow) :
    same_key (reing t s) x = same_key s x := rfl

/-- The join condition sees through the update step. -/
theorem same_key_update (s : RawRow) (S : List RawRow) (r : RawRow) :
    same_key s (update_row S r) = same_key s r := by
  unfold same_key
  rw [(update_row_keys S r).1, (update_row_keys S r).2]

/-- The update step never decreases a non-null stored `updated_at`. -/
theorem update_row_upd_mono (S : List RawRow) (r : RawRow) (ru : Int)
    (hru : r.updated_at = some ru) :
    ∃ w, (update_row S r).updated_at = some w ∧ ru ≤ w := by
  unfold update_row
  cases h : S.find? (fun s => same_key s r && upd_cond s r) with
  | none => exact ⟨ru, hru, le_refl ru⟩
  | some s =>
    have hp := List.find?_some h
    rw [Bool.and_eq_true] at hp
    have hcond := hp.2
    cases hsu : s.updated_at with
    | none =>
      refine ⟨ru, ?_, le_refl ru⟩
      simp [apply_update, hsu, Option.orElse, hru]
    | some su =>
      refine ⟨su, by simp [apply_update, hsu, Option.orElse], ?_⟩
      unfold upd_cond at hcond
      rw [hru, hsu] at hcond
      simpa using hcond

/-- Head step of the update scan when the head staged row matches. -/
theorem update_row_cons_pos (s : RawRow) (S : List RawRow) (r : RawRow)
    (h : (same_key s r && upd_cond s r) = true) :
    update_row (s :: S) r = apply_update s r := by
  unfold update_row
  rw [List.find?_cons_of_pos S h]

/-- Head step of the update scan when the head staged row does not
match. -/
theorem update_row_cons_neg (s : RawRow) (S : List RawRow) (r : RawRow)
    (h : (same_key s r && upd_cond s r) = false) :
    update_row (s :: S) r = update_row S r := by
  unfold update_row
  rw [List.find?_cons_of_neg S (by simp [h])]

/-- The freshness condition only fails when both timestamps are present
and the staged one is strictly older. -/
theorem upd_cond_false_elim (s r : RawRow) (h : upd_cond s r = false) :
    ∃ ru su, r.updated_at = some ru ∧ s.updated_at = some su ∧ su < ru := by
  unfold upd_cond at h
  cases hru : r.updated_at with
  | none =>
    rw [hru] at h
    simp at h
  | some ru =>
    cases hsu : s.updated_at with
    | none =>
      rw [hru, hsu] at h
      simp at h
    | some su =>
      rw [hru, hsu] at h
      simp only [ge_iff_le, decide_eq_false_iff_not, not_le] at h
      exact ⟨ru, su, rfl, rfl, h⟩

/-- Applying the update from a re-stamped copy of the stage to an
already-updated row changes nothing but the ingestion timestamp. -/
theorem update_row_fixpoint (t₂ : Int) (S : List RawRow) (r : RawRow) :
    row_content (update_row (S.map (reing t₂)) (update_row S r))
      = row_content (update_row S r) := by
  induction S with
  | nil =>
    unfold update_row
    simp
  | cons s S' ih =>
    by_cases hks : same_key s r = true
    · by_cases hcs : upd_cond s r = true
      · have hpred : (fun s' => same_key s' r && upd_cond s' r) s = true := by
          simp [hks, hcs]
        have h1 : update_row (s :: S') r = apply_update s r :=
          update_row_cons_pos s S' r (by simp [hks, hcs])
        rw [h1]
        have hks2 : same_key (reing t₂ s) (apply_update s r) = same_key s r := rfl
        have hcs2 : upd_cond (reing t₂ s) (apply_update s r) = true := by
          unfold upd_cond apply_update reing
          cases hsu : s.updated_at with
          | some su => simp [hsu, Option.orElse]
          | none =>
            cases hru : r.updated_at <;> simp [hsu, hru, Option.orElse]
        have hpred2 : (fun s' => same_key s' (apply_update s r)
            && upd_cond s' (apply_update s r)) (reing t₂ s) = true := by
          simp only [hks2, hcs2, hks, Bool.and_self]
        have h2 : update_row ((s :: S').map (reing t₂)) (apply_update s r)
            = apply_update (reing t₂ s) (apply_update s r) := by
          rw [List.map_cons]
          exact update_row_cons_pos (reing t₂ s) (S'.map (reing t₂)) (apply_update s r)
            (by rw [hks2]; simp [hks, hcs2])
        rw [h2]
        unfold row_content apply_update reing
        cases hsu : s.updated_at with
        | some su => simp [hsu, Option.orElse]
        | none => simp [hsu, Option.orElse]
      · obtain ⟨ru, su, hru, hsu, hlt⟩ :=
          upd_cond_false_elim s r (Bool.eq_false_iff.mpr hcs)
        have hpred : (fun s' => same_key s' r && upd_cond s' r) s = false := by
          simp [Bool.eq_false_iff.mpr hcs]
        have h1 : update_row (s :: S') r = update_row S' r :=
          update_row_cons_neg s S' r (by simp [Bool.eq_false_iff.mpr hcs])
        rw [h1]
        obtain ⟨w, hw, hww⟩ := update_row_upd_mono S' r ru hru
        have hc2 : upd_cond (reing t₂ s) (update_row S' r) = false := by
          unfold upd_cond reing
          rw [hw]
          have : ({ s with ingested_at := t₂ } : RawRow).updated_at = some su := hsu
          rw [hsu]
          simp only [ge_iff_le, decide_eq_false_iff_not, not_le]
          omega
        have hpred2 : (fun s' => same_key s' (update_row S' r)
            && upd_cond s' (update_row S' r)) (reing t₂ s) = false := by
          simp [hc2]
        have h2 : update_row ((s :: S').map (reing t₂)) (update_row S' r)
            = update_row (S'.map (reing t₂)) (update_row S' r) := by
          rw [List.map_cons]
          exact update_row_cons_neg (reing t₂ s) (S'.map (reing t₂)) (update_row S' r)
            (by simp [hc2])
        rw [h2]
        exact ih
    · have hksf : same_key s r = false := Bool.eq_false_iff.mpr hks
      have hpred : (fun s' => same_key s' r && upd_cond s' r) s = false := by
        simp [hksf]
      have h1 : update_row (s :: S') r = update_row S' r :=
        update_row_cons_neg s S' r (by simp [hksf])
      rw [h1]
      have hks2 : same_key (reing t₂ s) (update_row S' r) = false := by
        rw [same_key_reing, same_key_update]
        exact hksf
      have hpred2 : (fun s' => same_key s' (update_row S' r)
          && upd_cond s' (update_row S' r)) (reing t₂ s) = false := by
        simp [hks2]
      have h2 : update_row ((s :: S').map (reing t₂)) (update_row S' r)
          = update_row (S'.map (reing t₂)) (update_row S' r) := by
        rw [List.map_cons]
        exact update_row_cons_neg (reing t₂ s) (S'.map (reing t₂)) (update_row S' r)
          (by simp [hks2])
      rw [h2]
      exact ih

/-- Claim C5: re-ingesting an identical batch is idempotent — the second
call reports zero newly inserted rows, keeps the number of stored rows,
and leaves the content (identity, `updated_at`, payload) of every stored
row unchanged; only the ingestion timestamps may move. -/
theorem c5_ingest_records_idempotent (e : String) (t₁ t₂ : Int) (recs : List SrcRecord) (st : List RawRow) :
    ((ingest_records e t₂ recs true (ingest_records e t₁ recs true st).2).1 = 0)
    ∧ (ingest_records e t₂ recs true (ingest_records e t₁ recs true st).2).2.length
        = (ingest_records e t₁ recs true st).2.length
    ∧ (ingest_records e t₂ recs true (ingest_records e t₁ recs true st).2).2.map row_content
        = (ingest_records e t₁ recs true st).2.map row_content := by
  by_cases hemp : (stage_rows e t₁ recs).isEmpty
  · have h0 : stage_rows e t₁ recs = [] := List.isEmpty_iff.mp hemp
    have h02 : stage_rows e t₂ recs = [] := by
      rw [stage_rows_shift e t₁ t₂, h0]
      rfl
    have e1 : ingest_records e t₁ recs true st = (0, st) := by
      simp [ingest_records, h0]
    have e2 : ingest_records e t₂ recs true st = (0, st) := by
      simp [ingest_records, h02]
    rw [e1]
    rw [e2]
    exact ⟨rfl, rfl, rfl⟩
  · have hf : (stage_rows e t₁ recs).isEmpty = false := Bool.eq_false_iff.mpr hemp
    have hne : stage_rows e t₁ recs ≠ [] := by
      intro hc
      rw [hc] at hf
      simp at hf
    have e1 : ingest_records e t₁ recs true st
        = ((new_rows st (stage_rows e t₁ recs)).length,
           (st ++ new_rows st (stage_rows e t₁ recs)).map
             (update_row (stage_rows e t₁ recs))) := by
      simp [ingest_records, hf]
    have hkeyavail : ∀ s ∈ stage_rows e t₁ recs,
        ∃ rr ∈ st ++ new_rows st (stage_rows e t₁ recs), same_key s rr = true := by
      intro s hs
      by_cases hany : st.any (fun r => same_key s r) = true
      · obtain ⟨rr, hrr, hkey⟩ := List.any_eq_true.mp hany
        exact ⟨rr, List.mem_append_left _ hrr, hkey⟩
      · refine ⟨s, List.mem_append_right _ ?_, ?_⟩
        · unfold new_rows
          rw [List.mem_filter]
          refine ⟨hs, ?_⟩
          simp only [Bool.not_eq_true] at hany
          simp [hany]
        · simp [same_key]
    have hany2 : ∀ s' ∈ stage_rows e t₂ recs,
        ((st ++ new_rows st (stage_rows e t₁ recs)).map
          (update_row (stage_rows e t₁ recs))).any (fun rr => same_key s' rr) = true := by
      intro s' hs'
      rw [stage_rows_shift e t₁ t₂] at hs'
      obtain ⟨s, hs, rfl⟩ := List.mem_map.mp hs'
      obtain ⟨rr, hrr, hkey⟩ := hkeyavail s hs
      rw [List.any_eq_true]
      refine ⟨update_row (stage_rows e t₁ recs) rr, List.mem_map_of_mem _ hrr, ?_⟩
      rw [same_key_reing, same_key_update]
      exact hkey
    have hfresh2 : new_rows
        ((st ++ new_rows st (stage_rows e t₁ recs)).map (update_row (stage_rows e t₁ recs)))
        (stage_rows e t₂ recs) = [] := by
      unfold new_rows
      rw [List.filter_eq_nil_iff]
      intro s' hs'
      have h := hany2 s' hs'
      show ¬ ((!((st ++ new_rows st (stage_rows e t₁ recs)).map
          (update_row (stage_rows e t₁ recs))).any fun rr => same_key s' rr) = true)
      rw [h]
      simp
    have hf2 : (stage_rows e t₂ recs).isEmpty = false := by
      rw [stage_rows_shift e t₁ t₂]
      cases hcase : stage_rows e t₁ recs with
      | nil => exact absurd hcase hne
      | cons a l => rfl
    have e2 : ingest_records e t₂ recs true
        ((st ++ new_rows st (stage_rows e t₁ recs)).map (update_row (stage_rows e t₁ recs)))
        = (0,
           ((st ++ new_rows st (stage_rows e t₁ recs)).map
             (update_row (stage_rows e t₁ recs))).map
               (update_row (stage_rows e t₂ recs))) := by
      simp only [ingest_records, hf2, Bool.false_eq_true, if_false, if_true]
      rw [hfresh2]
      simp
    rw [e1]
    rw [e2]
    refine ⟨rfl, by simp, ?_⟩
    simp only [List.map_map]
    apply List.map_congr_left
    intro r _
    simp only [Function.comp_apply]
    rw [stage_rows_shift e t₁ t₂]
    exact update_row_fixpoint t₂ (stage_rows e t₁ recs) r

/-- Claim C1: the claim says `fetch_collection` accepts an `until`
argument and sends since and until as query bounds on every request. In
the source, the keyword-only signature of `fetch_collection` has no
`until` parameter even though `_cmd_whoop_backfill` passes one (a
`TypeError` on the first window), and the query parameters built inside
the pagination loop can only ever carry `limit`, `start` and
`nextToken` — never an until bound. -/
theorem c1_fetch_collection_has_no_until_bound :
    "until" ∈ backfill_fetch_call_kwargs
      ∧ "until" ∉ fetch_collection_arg_names
      ∧ ∀ (limit : Int) (since next_token : Option String),
          ((build_params limit since next_token).map Prod.fst).all
            (fun k => ["limit", "start", "nextToken"].contains k) = true := by
  refine ⟨by decide, by decide, ?_⟩
  intro limit since next_token
  cases since <;> cases next_token <;> simp [build_params]

/-- Claim C2: the claim says all four workout aggregate fields (count,
strain sum, kilojoule sum, minutes sum) are summed across collapsed rows
and present in the output. On a frame carrying all four, the collapse
keeps only `workout_count` and `workout_strain_sum` (the only members of
its `sum_cols`) and silently drops `workout_kilojoule_sum` and
`workout_minutes_sum` from the output columns. -/
theorem c2_collapse_drops_kilojoule_and_minutes :
    ("workout_kilojoule_sum" ∈
        (PFrame.mk ["date", "workout_count", "workout_strain_sum",
            "workout_kilojoule_sum", "workout_minutes_sum"]
          [[("date", 1), ("workout_count", 1), ("workout_strain_sum", 5),
            ("workout_kilojoule_sum", 100), ("workout_minutes_sum", 30)],
           [("date", 1), ("workout_count", 2), ("workout_strain_sum", 7),
            ("workout_kilojoule_sum", 200), ("workout_minutes_sum", 45)]]).cols)
    ∧ (collapse_daily_to_one_row_per_date
        (PFrame.mk ["date", "workout_count", "workout_strain_sum",
            "workout_kilojoule_sum", "workout_minutes_sum"]
          [[("date", 1), ("workout_count", 1), ("workout_strain_sum", 5),
            ("workout_kilojoule_sum", 100), ("workout_minutes_sum", 30)],
           [("date", 1), ("workout_count", 2), ("workout_strain_sum", 7),
            ("workout_kilojoule_sum", 200), ("workout_minutes_sum", 45)]])).cols
        = ["date", "workout_count", "workout_strain_sum"]
    ∧ (collapse_daily_to_one_row_per_date
        (PFrame.mk ["date", "workout_count", "workout_strain_sum",
            "workout_kilojoule_sum", "workout_minutes_sum"]
          [[("date", 1), ("workout_count", 1), ("workout_strain_sum", 5),
            ("workout_kilojoule_sum", 100), ("workout_minutes_sum", 30)],
           [("date", 1), ("workout_count", 2), ("workout_strain_sum", 7),
            ("workout_kilojoule_sum", 200), ("workout_minutes_sum", 45)]])).rows
        = [[("date", 1), ("workout_count", 3), ("workout_strain_sum", 12)]] := by
  refine ⟨by decide, by decide, by decide⟩

/-- Claim C6: the claim says the raw store holds at most one row per
`(endpoint, record_id)` after any ingests, including batches that repeat
a record id. A single batch repeating id `a` on an empty store inserts
two physical rows for the identity `("cycle", "a")`: the NOT EXISTS
check of the insert only consults the pre-statement table, and
`init_schema` declares no uniqueness constraint. -/
theorem c6_duplicate_ids_in_one_batch_insert_two_rows :
    (ingest_records "cycle" 0
        [SrcRecord.mk (some "a") none "p1", SrcRecord.mk (some "a") none "p2"]
        true []).1 = 2
    ∧ ((ingest_records "cycle" 0
        [SrcRecord.mk (some "a") none "p1", SrcRecord.mk (some "a") none "p2"]
        true []).2.filter
          fun r => r.endpoint = "cycle" && r.record_id = "a").length = 2 := by
  refine ⟨by decide, by decide⟩

/-- Claim C4 counterexample: the claim says that when the incoming
`updated_at` is null the stored row payload, `updated_at` and
`ingested_at` are all replaced by the incoming values. Ingesting a
null-`updated_at` record over a stored row with `updated_at = 5`
replaces payload and `ingested_at` but keeps `updated_at = 5` (the SET
clause uses `COALESCE(s.updated_at, r.updated_at)`), so the stored
`updated_at` is not replaced by the incoming null. -/
theorem c4_counterexample_null_incoming_keeps_updated_at :
    (ingest_records "workout" 10 [SrcRecord.mk (some "a") none "new"] true
        [RawRow.mk "workout" "a" (some 5) 0 "old"])
      = (0, [RawRow.mk "workout" "a" (some 5) 10 "new"])
    ∧ ((ingest_records "workout" 10 [SrcRecord.mk (some "a") none "new"] true
        [RawRow.mk "workout" "a" (some 5) 0 "old"]).2.map RawRow.updated_at)
      ≠ [none] := by
  refine ⟨by decide, by decide⟩

/-- Claim C3 counterexample: the claim says the per-date workout minutes
sum is computed from each workout start/end timestamps. For a workout
spanning 3600 seconds (60 minutes) whose vendor `duration_milli` is
120000 (2 minutes), the code produces 2 — it sums `duration_milli` and
divides by 60000 — while the claimed start/end computation gives 60. The
code also produces no heart-rate aggregates at all. -/
theorem c3_counterexample_minutes_not_from_start_stop :
    ((add_workout_daily_metrics [0] [WorkoutRow.mk 0 3600 5 100 120000]).map
        DailyWRow.workout_minutes_sum) = [2]
    ∧ spec_minutes_from_start_stop [WorkoutRow.mk 0 3600 5 100 120000] 0 = 60
    ∧ (2 : ℚ) ≠ 60 := by
  refine ⟨?_, ?_, by norm_num⟩
  · norm_num [add_workout_daily_metrics, workout_agg, sorted_dates, insert_key,
      workout_agg_row, date_of_ts]
  · norm_num [spec_minutes_from_start_stop, date_of_ts]

end FitAdv
